import Mathlib

/-!
A verification development for the color core (`src/color/model.rs`,
`src/color/parse.rs`).

Embedding conventions:

* Rust `ColorFloat` (an `f32`) is modelled by `ℚ` with exact arithmetic.
  The transcendental operations that cannot live in `ℚ` are abstracted as
  function parameters of the definitions that use them:
  - `pw`    models `x.powf(2.4)` (the sRGB decode exponent),
  - `pwInv` models `x.powf(1.0 / 2.4)` (the sRGB encode exponent),
  - `cbrt`  models `x.cbrt()`,
  - `sq`    models `x.sqrt()`,
  - `cosr`/`sinr` model `h.to_radians().cos()` / `h.to_radians().sin()`.
  Theorems that need facts about these parameters take them as explicit
  hypotheses (all satisfied by the real functions).
* Rust `u8` channels are modelled by `ℕ`; `Color.Valid` states that each
  channel is ≤ 255 (automatic for `u8`, a hypothesis here).
* `expr as u8` on an `f32` is the Rust saturating cast: truncate toward
  zero, clamp into `[0, 255]` (`intToU8`/`asU8` below).
* `f32::round` rounds half away from zero (`roundAwayI`).
* `f32::rem_euclid` and the `%` operator are `qRemEuclid`/`qRem`.
* Rust strings are modelled by `List Char`.
-/

/-- Rust `f32::clamp lo hi` (for `lo ≤ hi`). -/
def clampQ (x lo hi : ℚ) : ℚ := min (max x lo) hi

/-- Saturating conversion of an integer to the `u8` range, as performed by
Rust's `as u8` cast on a float that is already integral. -/
def intToU8 (n : ℤ) : ℕ := (max 0 (min 255 n)).toNat

/-- Rust `(q).floor() as u8`: floor, then saturating cast.  (For the cast
alone on a possibly fractional `q ≥ 0` truncation equals flooring, and every
negative value saturates to 0, so this also models a plain `q as u8`.) -/
def asU8 (q : ℚ) : ℕ := intToU8 ⌊q⌋

/-- Rust `f32::round`: round half away from zero, as an integer. -/
def roundAwayI (q : ℚ) : ℤ := if 0 ≤ q then ⌊q + 1/2⌋ else -⌊-q + 1/2⌋

/-- Rust `f32::rem_euclid` (used only with positive moduli). -/
def qRemEuclid (a b : ℚ) : ℚ := a - b * ⌊a / b⌋

/-- Truncation toward zero. -/
def qTrunc (q : ℚ) : ℤ := if 0 ≤ q then ⌊q⌋ else ⌈q⌉

/-- Rust's `%` on floats: remainder with the sign of the dividend. -/
def qRem (a b : ℚ) : ℚ := a - b * qTrunc (a / b)

/-- `BlendMode` from `model.rs`. -/
inductive BlendMode where
  | Normal
  | Multiply
  | Screen
  | Overlay
  | Darken
  | Lighten
  | ColorDodge
  | ColorBurn
  | HardLight
  | SoftLight
  | Difference
  | Exclusion
  | Hue
  | Saturation
  | Color
  | Luminosity
deriving DecidableEq

/-- `Color` from `model.rs`: four `u8` sRGB channels, modelled as `ℕ`. -/
structure Color where
  r : ℕ
  g : ℕ
  b : ℕ
  a : ℕ
deriving DecidableEq

namespace Color

/-- Channels lie in the `u8` range (automatic in Rust, a hypothesis here). -/
def Valid (c : Color) : Prop := c.r ≤ 255 ∧ c.g ≤ 255 ∧ c.b ≤ 255 ∧ c.a ≤ 255

instance (c : Color) : Decidable c.Valid := by unfold Valid; infer_instance

/-- `Color::new`. -/
def new (r g b a : ℕ) : Color := ⟨r, g, b, a⟩

/-- `Color::TRANSPARENT`. -/
def TRANSPARENT : Color := new 0 0 0 0
/-- `Color::BLACK`. -/
def BLACK : Color := new 0 0 0 255
/-- `Color::WHITE`. -/
def WHITE : Color := new 255 255 255 255

/-- `Color::with_alpha`. -/
def with_alpha (c : Color) (a : ℕ) : Color := ⟨c.r, c.g, c.b, a⟩

/-- `Color::from_rgb` (alpha defaults to 255). -/
def from_rgb (rgb : ℕ × ℕ × ℕ) : Color := ⟨rgb.1, rgb.2.1, rgb.2.2, 255⟩

/-- `Color::from_rgba`. -/
def from_rgba (rgba : ℕ × ℕ × ℕ × ℕ) : Color :=
  ⟨rgba.1, rgba.2.1, rgba.2.2.1, rgba.2.2.2⟩

/-- `Color::decode_srgb` (non-LUT reference path).  `pw` models
`x.powf(2.4)`. -/
def decode_srgb (pw : ℚ → ℚ) (srgb_u8 : ℕ) : ℚ :=
  let srgb : ℚ := (srgb_u8 : ℚ) / 255
  if srgb ≤ 0.04045 then srgb / 12.92 else pw ((srgb + 0.055) / 1.055)

/-- `Color::encode_srgb` (non-LUT reference path).  `pwInv` models
`x.powf(1.0 / 2.4)`. -/
def encode_srgb (pwInv : ℚ → ℚ) (lin : ℚ) : ℕ :=
  let l := clampQ lin 0 1
  if l ≤ 0.0031308 then asU8 ((12.92 * l) * 255 + 0.5)
  else asU8 ((1.055 * pwInv l - 0.055) * 255 + 0.5)

/-- `Color::into_linear`: decode each channel, alpha scaled by `1/255`. -/
def into_linear (pw : ℚ → ℚ) (c : Color) : ℚ × ℚ × ℚ × ℚ :=
  (decode_srgb pw c.r, decode_srgb pw c.g, decode_srgb pw c.b, (c.a : ℚ) / 255)

/-- `Color::from_linear`: encode each channel, alpha clamped then scaled. -/
def from_linear (pwInv : ℚ → ℚ) (lin : ℚ × ℚ × ℚ × ℚ) : Color :=
  ⟨encode_srgb pwInv lin.1, encode_srgb pwInv lin.2.1, encode_srgb pwInv lin.2.2.1,
    asU8 (clampQ lin.2.2.2 0 1 * 255 + 0.5)⟩

/-- `Color::over`: Porter-Duff over in linear space. -/
def over (pw pwInv : ℚ → ℚ) (self bg : Color) : Color :=
  let fg := into_linear pw self
  let bgl := into_linear pw bg
  let fr := fg.1; let fg_ := fg.2.1; let fb := fg.2.2.1; let fa := fg.2.2.2
  let br := bgl.1; let bgc := bgl.2.1; let bb := bgl.2.2.1; let ba := bgl.2.2.2
  let out_a := fa + ba * (1 - fa)
  let outc :=
    if out_a > 0 then
      ((fr * fa + br * ba * (1 - fa)) / out_a,
       (fg_ * fa + bgc * ba * (1 - fa)) / out_a,
       (fb * fa + bb * ba * (1 - fa)) / out_a)
    else (0, 0, 0)
  from_linear pwInv (outc.1, outc.2.1, outc.2.2, out_a)

/-- `Color::over_srgb_fast`: Porter-Duff over on encoded values. -/
def over_srgb_fast (self dst0 : Color) : Color :=
  let dst := if dst0.a = 0 then self else dst0
  let sa : ℚ := (self.a : ℚ) / 255
  if sa ≤ 0 then dst else
  let da : ℚ := (dst.a : ℚ) / 255
  let out_a := sa + da * (1 - sa)
  let blend := fun (sc dc : ℕ) =>
    asU8 (((sc : ℚ) / 255 * sa + (dc : ℚ) / 255 * da * (1 - sa)) / max out_a 1e-6 * 255 + 0.5)
  ⟨blend self.r dst.r, blend self.g dst.g, blend self.b dst.b, asU8 (out_a * 255 + 0.5)⟩

/-- `Color::lum` (W3C non-separable blend helper). -/
def lum (c : ℚ × ℚ × ℚ) : ℚ := 0.3 * c.1 + 0.59 * c.2.1 + 0.11 * c.2.2

/-- `Color::clip_color`. -/
def clip_color (c : ℚ × ℚ × ℚ) : ℚ × ℚ × ℚ :=
  let l := lum c
  let n := min c.1 (min c.2.1 c.2.2)
  let x := max c.1 (max c.2.1 c.2.2)
  if n < 0 then
    (l + (c.1 - l) * l / (l - n), l + (c.2.1 - l) * l / (l - n), l + (c.2.2 - l) * l / (l - n))
  else if x > 1 then
    (l + (c.1 - l) * (1 - l) / (x - l), l + (c.2.1 - l) * (1 - l) / (x - l),
      l + (c.2.2 - l) * (1 - l) / (x - l))
  else c

/-- `Color::set_lum`. -/
def set_lum (c : ℚ × ℚ × ℚ) (l : ℚ) : ℚ × ℚ × ℚ :=
  let d := l - lum c
  clip_color (c.1 + d, c.2.1 + d, c.2.2 + d)

/-- `Color::sat`. -/
def sat (c : ℚ × ℚ × ℚ) : ℚ :=
  max c.1 (max c.2.1 c.2.2) - min c.1 (min c.2.1 c.2.2)

/-- Channel tags used by `Color::set_sat` for its role bookkeeping
(the Rust source uses the `char`s `'r'`, `'g'`, `'b'`). -/
inductive Chan where
  | cr
  | cg
  | cb
deriving DecidableEq

/-- Write value `v` into the channel named `ch` of `acc` (models the three
sequential `match` assignments at the end of `Color::set_sat`). -/
def putChan (ch : Chan) (v : ℚ) (acc : ℚ × ℚ × ℚ) : ℚ × ℚ × ℚ :=
  match ch with
  | .cr => (v, acc.2.1, acc.2.2)
  | .cg => (acc.1, v, acc.2.2)
  | .cb => (acc.1, acc.2.1, v)

/-- `Color::set_sat`, with the source's sequential max/min/mid role
selection and its mid-anchored rescale. -/
def set_sat (c : ℚ × ℚ × ℚ) (s : ℚ) : ℚ × ℚ × ℚ :=
  let r := c.1; let g := c.2.1; let b := c.2.2
  let roles :=
    if r ≥ g ∧ r ≥ b then
      if g ≤ b then ((r, Chan.cr), (g, Chan.cg), (b, Chan.cb))
      else ((r, Chan.cr), (b, Chan.cb), (g, Chan.cg))
    else if g ≥ r ∧ g ≥ b then
      if r ≤ b then ((g, Chan.cg), (r, Chan.cr), (b, Chan.cb))
      else ((g, Chan.cg), (b, Chan.cb), (r, Chan.cr))
    else
      if r ≤ g then ((b, Chan.cb), (r, Chan.cr), (g, Chan.cg))
      else ((b, Chan.cb), (g, Chan.cg), (r, Chan.cr))
  let mx := roles.1.1; let mxCh := roles.1.2
  let mn := roles.2.1.1; let mnCh := roles.2.1.2
  let md := roles.2.2.1; let mdCh := roles.2.2.2
  let chroma := mx - mn
  if chroma = 0 then (0, 0, 0) else
  let scale := s / chroma
  let new_max := md + (mx - md) * scale
  let new_min := md - (md - mn) * scale
  let new_mid := md
  putChan mdCh new_mid (putChan mnCh new_min (putChan mxCh new_max (0, 0, 0)))

/-- The HardLight per-channel formula (shared by `HardLight` and `Overlay`,
which the source implements as a recursive call). -/
def hardLightF (b s : ℚ) : ℚ :=
  if s ≤ 0.5 then 2 * b * s else 1 - 2 * (1 - b) * (1 - s)

/-- Apply a per-channel function to two triples (`Color::blend`). -/
def blendMap (f : ℚ → ℚ → ℚ) (backdrop source : ℚ × ℚ × ℚ) : ℚ × ℚ × ℚ :=
  (f backdrop.1 source.1, f backdrop.2.1 source.2.1, f backdrop.2.2 source.2.2)

/-- `Color::blend_channel`.  `sq` models `f32::sqrt` (used by SoftLight). -/
def blend_channel (sq : ℚ → ℚ) (mode : BlendMode) (backdrop source : ℚ × ℚ × ℚ) :
    ℚ × ℚ × ℚ :=
  match mode with
  | .Normal => source
  | .Multiply => blendMap (fun b s => b * s) backdrop source
  | .Screen => blendMap (fun b s => b + s - b * s) backdrop source
  | .Overlay => blendMap hardLightF backdrop source
  | .Darken => blendMap (fun b s => min b s) backdrop source
  | .Lighten => blendMap (fun b s => max b s) backdrop source
  | .ColorDodge =>
      blendMap (fun b s => if b = 0 then 0 else if s = 1 then 1 else min 1 (b / (1 - s)))
        backdrop source
  | .ColorBurn =>
      blendMap (fun b s => if b = 1 then 1 else if s = 0 then 0 else 1 - min 1 ((1 - b) / s))
        backdrop source
  | .HardLight => blendMap hardLightF backdrop source
  | .SoftLight =>
      blendMap (fun b s =>
        if s ≤ 0.5 then b - (1 - 2 * s) * b * (1 - b)
        else
          let d := if b ≤ 0.25 then ((16 * b - 12) * b + 4) * b else sq b
          b + (2 * s - 1) * (d - b)) backdrop source
  | .Difference => blendMap (fun b s => |b - s|) backdrop source
  | .Exclusion => blendMap (fun b s => b + s - 2 * b * s) backdrop source
  | .Hue => set_lum (set_sat source (sat backdrop)) (lum backdrop)
  | .Saturation => set_lum (set_sat backdrop (sat source)) (lum backdrop)
  | .Color => set_lum source (lum backdrop)
  | .Luminosity => set_lum backdrop (lum source)

/-- `Color::blend_over`. -/
def blend_over (pw pwInv sq : ℚ → ℚ) (self bg : Color) (mode : BlendMode) : Color :=
  if self.a = 0 then bg
  else if mode = .Normal ∨ bg.a = 0 then over pw pwInv self bg
  else
    let s := into_linear pw self
    let d := into_linear pw bg
    let sr := s.1; let sg := s.2.1; let sb := s.2.2.1; let sa := s.2.2.2
    let dr := d.1; let dg := d.2.1; let db := d.2.2.1; let da := d.2.2.2
    let bl := blend_channel sq mode (dr, dg, db) (sr, sg, sb)
    let a_out := sa + da - sa * da
    let cr_p := dr * da * (1 - sa) + sr * sa * (1 - da) + sa * da * bl.1
    let cg_p := dg * da * (1 - sa) + sg * sa * (1 - da) + sa * da * bl.2.1
    let cb_p := db * da * (1 - sa) + sb * sa * (1 - da) + sa * da * bl.2.2
    let outc :=
      if a_out > 0 then (cr_p / a_out, cg_p / a_out, cb_p / a_out, a_out)
      else (0, 0, 0, 0)
    from_linear pwInv outc

/-- `Color::from_hsl`.  Hue wraps via `rem_euclid(360.0)`; saturation and
lightness are given as percentages; alpha is set to 255. -/
def from_hsl (hsl : ℚ × ℚ × ℚ) : Color :=
  let h := qRemEuclid hsl.1 360
  let s := hsl.2.1 / 100
  let l := hsl.2.2 / 100
  let c := (1 - |2 * l - 1|) * s
  let x := c * (1 - |qRem (h / 60) 2 - 1|)
  let m := l - c / 2
  let rgbp :=
    if h < 60 then (c, x, (0:ℚ))
    else if h < 120 then (x, c, 0)
    else if h < 180 then (0, c, x)
    else if h < 240 then (0, x, c)
    else if h < 300 then (x, 0, c)
    else (c, 0, x)
  ⟨asU8 ((rgbp.1 + m) * 255 + 0.5), asU8 ((rgbp.2.1 + m) * 255 + 0.5),
    asU8 ((rgbp.2.2 + m) * 255 + 0.5), 255⟩

/-- `Color::from_hsla`: like `from_hsl` but saturation/lightness are clamped
fractions and the fourth component scales to the alpha channel. -/
def from_hsla (hsla : ℚ × ℚ × ℚ × ℚ) : Color :=
  let h := qRemEuclid hsla.1 360
  let s := clampQ hsla.2.1 0 1
  let l := clampQ hsla.2.2.1 0 1
  let c := (1 - |2 * l - 1|) * s
  let x := c * (1 - |qRem (h / 60) 2 - 1|)
  let m := l - c / 2
  let rgbp :=
    if h < 60 then (c, x, (0:ℚ))
    else if h < 120 then (x, c, 0)
    else if h < 180 then (0, c, x)
    else if h < 240 then (0, x, c)
    else if h < 300 then (x, 0, c)
    else (c, 0, x)
  ⟨asU8 ((rgbp.1 + m) * 255 + 0.5), asU8 ((rgbp.2.1 + m) * 255 + 0.5),
    asU8 ((rgbp.2.2 + m) * 255 + 0.5), asU8 (hsla.2.2.2 * 255 + 0.5)⟩

/-- `Color::into_hsl`: hue in degrees, saturation/lightness as percentages. -/
def into_hsl (c : Color) : ℚ × ℚ × ℚ :=
  let r' := (c.r : ℚ) / 255
  let g' := (c.g : ℚ) / 255
  let b' := (c.b : ℚ) / 255
  let cmax := max r' (max g' b')
  let cmin := min r' (min g' b')
  let delta0 := cmax - cmin
  let delta := if |delta0| < 1e-8 then 0 else delta0
  let h :=
    if delta = 0 then 0
    else if r' = cmax then 60 * qRemEuclid ((g' - b') / delta) 6
    else if g' = cmax then 60 * ((b' - r') / delta + 2)
    else 60 * ((r' - g') / delta + 4)
  let l := (cmax + cmin) / 2
  let s := if delta = 0 then 0 else delta / (1 - |2 * l - 1|)
  (h, s * 100, l * 100)

/-- `Color::into_hsla`. -/
def into_hsla (c : Color) : ℚ × ℚ × ℚ × ℚ :=
  let hsl := into_hsl c
  (hsl.1, hsl.2.1, hsl.2.2, (c.a : ℚ) / 255)

/-- `Color::lighten_hsl`: raises the `into_hsl` lightness (a percentage) by
`amt` and clamps the sum into `[0, 1]` before rebuilding. -/
def lighten_hsl (c : Color) (amt : ℚ) : Color :=
  let hsl := into_hsl c
  let l := clampQ (hsl.2.2 + amt) 0 1
  from_hsl (hsl.1, hsl.2.1, l)

/-- `Color::darken_hsl`. -/
def darken_hsl (c : Color) (amt : ℚ) : Color :=
  let hsl := into_hsl c
  let l := clampQ (hsl.2.2 - amt) 0 1
  from_hsl (hsl.1, hsl.2.1, l)

/-- `Color::from_oklab`: OKLab to LMS′, cube, then the OKLab M1⁻¹ matrix to
linear RGB; alpha is the constant 1.0. -/
def from_oklab (pwInv : ℚ → ℚ) (lab : ℚ × ℚ × ℚ) : Color :=
  let l_ := lab.1 + 0.39633778 * lab.2.1 + 0.21580376 * lab.2.2
  let m_ := lab.1 - 0.105561346 * lab.2.1 - 0.06385417 * lab.2.2
  let s_ := lab.1 - 0.08948418 * lab.2.1 - 1.2914856 * lab.2.2
  let l := l_ * l_ * l_
  let m := m_ * m_ * m_
  let s := s_ * s_ * s_
  from_linear pwInv
    (4.0767417 * l - 3.3077116 * m + 0.23096993 * s,
     -1.268438 * l + 2.6097574 * m - 0.3413194 * s,
     -0.0041960863 * l - 0.7034186 * m + 1.7076147 * s,
     1)

/-- `Color::into_oklab`.  `cbrt` models `f32::cbrt`. -/
def into_oklab (pw cbrt : ℚ → ℚ) (c : Color) : ℚ × ℚ × ℚ :=
  let lin := into_linear pw c
  let l := cbrt (0.41222147 * lin.1 + 0.53633254 * lin.2.1 + 0.051445993 * lin.2.2.1)
  let m := cbrt (0.2119035 * lin.1 + 0.6806996 * lin.2.1 + 0.10739696 * lin.2.2.1)
  let s := cbrt (0.08830246 * lin.1 + 0.28171884 * lin.2.1 + 0.6299787 * lin.2.2.1)
  (0.21045426 * l + 0.7936178 * m - 0.004072047 * s,
   1.9779985 * l - 2.4285922 * m + 0.4505937 * s,
   0.025904037 * l + 0.78277177 * m - 0.80867577 * s)

/-- `Color::oklch_to_oklab`.  `cosr h` and `sinr h` model
`h.to_radians().cos()` and `h.to_radians().sin()`. -/
def oklch_to_oklab (cosr sinr : ℚ → ℚ) (lch : ℚ × ℚ × ℚ) : ℚ × ℚ × ℚ :=
  (lch.1, lch.2.1 * cosr lch.2.2, lch.2.1 * sinr lch.2.2)

/-- The `within` closure of `Color::from_oklch`: membership of a linear RGB
triple in the unit cube. -/
def withinUnit (rgb : ℚ × ℚ × ℚ) : Bool :=
  decide (0 ≤ rgb.1 ∧ rgb.1 ≤ 1 ∧ 0 ≤ rgb.2.1 ∧ rgb.2.1 ≤ 1 ∧ 0 ≤ rgb.2.2 ∧ rgb.2.2 ≤ 1)

/-- The `to_srgb` closure of `Color::from_oklch`: build the (quantized,
clamped) `Color` from OKLCH and decode it back to linear RGB. -/
def oklchToSrgbLin (pw pwInv cosr sinr : ℚ → ℚ) (lch : ℚ × ℚ × ℚ) : ℚ × ℚ × ℚ :=
  let lin := into_linear pw (from_oklab pwInv (oklch_to_oklab cosr sinr lch))
  (lin.1, lin.2.1, lin.2.2.1)

/-- The 24-iteration chroma bisection loop of `Color::from_oklch`. -/
def oklchBisect (inG : ℚ → Bool) : ℕ → ℚ → ℚ → ℚ
  | 0, lo, _ => lo
  | n + 1, lo, hi =>
      let mid := 0.5 * (lo + hi)
      if inG mid then oklchBisect inG n mid hi else oklchBisect inG n lo mid

/-- `Color::from_oklch`: direct conversion if the decoded linear triple is in
the unit cube, otherwise a 24-step chroma bisection. -/
def from_oklch (pw pwInv cosr sinr : ℚ → ℚ) (lch : ℚ × ℚ × ℚ) : Color :=
  if withinUnit (oklchToSrgbLin pw pwInv cosr sinr lch) then
    from_oklab pwInv (oklch_to_oklab cosr sinr lch)
  else
    let lo := oklchBisect
      (fun mid => withinUnit (oklchToSrgbLin pw pwInv cosr sinr (lch.1, mid, lch.2.2)))
      24 0 lch.2.1
    from_oklab pwInv (oklch_to_oklab cosr sinr (lch.1, lo, lch.2.2))

/-- `Color::into_oklch`.  `sq` models `f32::sqrt`, `atan2d a b` models
`b.atan2(a).to_degrees()` (already in degrees). -/
def into_oklch (pw cbrt sq : ℚ → ℚ) (atan2d : ℚ → ℚ → ℚ) (c : Color) : ℚ × ℚ × ℚ :=
  let lab := into_oklab pw cbrt c
  let ch := sq (lab.2.1 * lab.2.1 + lab.2.2 * lab.2.2)
  let h0 := atan2d lab.2.1 lab.2.2
  let h := if h0 < 0 then h0 + 360 else h0
  (lab.1, ch, h)

/-- `Color::lerp` (per-channel interpolation on encoded values). -/
def lerp (self other : Color) (t : ℚ) : Color :=
  let t := clampQ t 0 1
  let lerp8 := fun (x y : ℕ) =>
    intToU8 (roundAwayI ((x : ℚ) + ((y : ℚ) - (x : ℚ)) * t))
  ⟨lerp8 self.r other.r, lerp8 self.g other.g, lerp8 self.b other.b, lerp8 self.a other.a⟩

/-- `impl fmt::Display for Color`: `#RRGGBBAA`, uppercase, 8 hex digits. -/
def hexDig (d : ℕ) : Char :=
  (['0', '1', '2', '3', '4', '5', '6', '7', '8', '9', 'A', 'B', 'C', 'D', 'E', 'F']).getD d '0'

/-- The two uppercase hex digits of a byte (`{:02X}` for values ≤ 255). -/
def hexByte (n : ℕ) : List Char := [hexDig (n / 16), hexDig (n % 16)]

/-- The `Display` output of a `Color`. -/
def displayColor (c : Color) : List Char :=
  '#' :: (hexByte c.r ++ hexByte c.g ++ hexByte c.b ++ hexByte c.a)

end Color

/-! ## The text parser (`src/color/parse.rs`) -/

/-- `ColorParseError` from `parse.rs`: the six typed parse errors. -/
inductive ColorParseError where
  | Empty
  | InvalidLength
  | InvalidHex
  | InvalidFunc
  | OutOfRange
  | InvalidToken
deriving DecidableEq

/-- ASCII whitespace as skipped by the tokenizer (`b' ' | b'\t' | b'\n' | b'\r'`),
and the whitespace removed by `str::trim` for the inputs considered here. -/
def isWsChar (c : Char) : Bool := c = ' ' ∨ c = '\t' ∨ c = '\n' ∨ c = '\r'

/-- `u8::is_ascii_digit`. -/
def isAsciiDigit (c : Char) : Bool := '0' ≤ c ∧ c ≤ '9'

/-- `char::to_ascii_lowercase`. -/
def toLowerChar (c : Char) : Char :=
  if 'A' ≤ c ∧ c ≤ 'Z' then Char.ofNat (c.toNat + 32) else c

/-- `str::trim`: drop whitespace from both ends. -/
def trimChars (l : List Char) : List Char :=
  ((l.dropWhile isWsChar).reverse.dropWhile isWsChar).reverse

/-- `str::strip_prefix` for a literal pattern (named to avoid clashing with
list-library vocabulary). -/
def stripLead : List Char → List Char → Option (List Char)
  | [], l => some l
  | _ :: _, [] => none
  | p :: ps, c :: cs => if c = p then stripLead ps cs else none

/-- `str::strip_suffix` for a single character. -/
def stripSuffixChar (ch : Char) (l : List Char) : Option (List Char) :=
  match l.getLast? with
  | some c => if c = ch then some l.dropLast else none
  | none => none

/-- Decimal digits to a natural number. -/
def digitsToNat (l : List Char) : ℕ :=
  l.foldl (fun acc c => 10 * acc + (c.toNat - '0'.toNat)) 0

/-- `u16::from_str`: optional `+`, then one or more decimal digits, value
below 2^16 (overflow is a parse error). -/
def parseU16? (l : List Char) : Option ℕ :=
  let core := match l with
    | '+' :: r => r
    | _ => l
  if core ≠ [] ∧ core.all isAsciiDigit then
    let v := digitsToNat core
    if v < 65536 then some v else none
  else none

/-- `f32::from_str` on finite decimal literals, with the exact rational value
(`inf`/`NaN` literals and f32 rounding are outside this model):
`[+-]? (digits [. digits*] | . digits+) ([eE][+-]?digits+)?`. -/
def parseFloat? (l : List Char) : Option ℚ :=
  let sgn : ℚ × List Char := match l with
    | '+' :: r => (1, r)
    | '-' :: r => (-1, r)
    | _ => (1, l)
  let ip := sgn.2.takeWhile isAsciiDigit
  let l2 := sgn.2.drop ip.length
  let frac : List Char × List Char := match l2 with
    | '.' :: r => (r.takeWhile isAsciiDigit, r.drop (r.takeWhile isAsciiDigit).length)
    | _ => ([], l2)
  let fp := frac.1
  if ip = [] ∧ fp = [] then none
  else
    let mant : ℚ := sgn.1 * ((digitsToNat ip : ℚ) + (digitsToNat fp : ℚ) / (10 ^ fp.length))
    match frac.2 with
    | [] => some mant
    | 'e' :: r | 'E' :: r =>
        let es : ℤ × List Char := match r with
          | '+' :: rr => (1, rr)
          | '-' :: rr => (-1, rr)
          | _ => (1, r)
        let ed := es.2.takeWhile isAsciiDigit
        if ed = [] ∨ es.2.drop ed.length ≠ [] then none
        else some (mant * (10 : ℚ) ^ (es.1 * (digitsToNat ed : ℤ)))
    | _ => none

/-- `CssColorToken` from `parse.rs`. -/
inductive CssColorToken where
  | Number (s : List Char)
  | Slash
  | Comma
deriving DecidableEq

/-- Length of the number token starting at the head of `l`:
optional sign, integer digits, optional `.` plus digits, optional `%`. -/
def numTokLen (l : List Char) : ℕ :=
  let s1 : ℕ × List Char := match l with
    | c :: r => if c = '+' ∨ c = '-' then (1, r) else (0, c :: r)
    | [] => (0, [])
  let d1 := (s1.2.takeWhile isAsciiDigit).length
  let l2 := s1.2.drop d1
  let f : ℕ := match l2 with
    | '.' :: r => 1 + (r.takeWhile isAsciiDigit).length
    | _ => 0
  let l3 := l2.drop f
  let p : ℕ := match l3 with
    | '%' :: _ => 1
    | _ => 0
  s1.1 + d1 + f + p

/-- The `tokenize` scan loop, with explicit fuel (each step consumes at
least one character, so `fuel = l.length` always suffices). -/
def tokenizeGo (fuel : ℕ) (l : List Char) : Except ColorParseError (List CssColorToken) :=
  match fuel, l with
  | _, [] => .ok []
  | 0, _ :: _ => .error .InvalidToken
  | fuel + 1, c :: rest =>
    if isWsChar c then tokenizeGo fuel rest
    else if c = '+' ∨ c = '-' ∨ isAsciiDigit c ∨ c = '.' then
      let n := numTokLen (c :: rest)
      if n = 0 then .error .InvalidToken
      else
        (tokenizeGo fuel ((c :: rest).drop n)).map
          (fun toks => .Number ((c :: rest).take n) :: toks)
    else if c = '/' then (tokenizeGo fuel rest).map (fun toks => .Slash :: toks)
    else if c = ',' then (tokenizeGo fuel rest).map (fun toks => .Comma :: toks)
    else .error .InvalidToken

/-- `tokenize` from `parse.rs`. -/
def tokenize (l : List Char) : Except ColorParseError (List CssColorToken) :=
  tokenizeGo l.length l

/-- `parse_rgb_component`. -/
def parse_rgb_component (num : List Char) : Except ColorParseError ℕ :=
  match stripSuffixChar '%' num with
  | some core =>
      match parseFloat? core with
      | none => .error .InvalidToken
      | some v =>
          if ¬(0 ≤ v ∧ v ≤ 100) then .error .OutOfRange
          else .ok (intToU8 (roundAwayI (v / 100 * 255)))
  | none =>
      match parseU16? num with
      | some vInt => if 255 < vInt then .error .OutOfRange else .ok vInt
      | none =>
          match parseFloat? num with
          | none => .error .InvalidToken
          | some v =>
              if ¬(0 ≤ v ∧ v ≤ 255) then .error .OutOfRange
              else .ok (intToU8 (roundAwayI v))

/-- The integer fallback of `parse_alpha_component`'s bare branch. -/
def alphaIntFallback (num : List Char) : Except ColorParseError ℕ :=
  match parseU16? num with
  | none => .error .InvalidToken
  | some vi => if 255 < vi then .error .OutOfRange else .ok vi

/-- `parse_alpha_component`: percentages as in `parse_rgb_component`; a bare
value is first tried as a float in `[0, 1]` (scaled by 255), then as an
integer in `[0, 255]`. -/
def parse_alpha_component (num : List Char) : Except ColorParseError ℕ :=
  match stripSuffixChar '%' num with
  | some core =>
      match parseFloat? core with
      | none => .error .InvalidToken
      | some v =>
          if ¬(0 ≤ v ∧ v ≤ 100) then .error .OutOfRange
          else .ok (intToU8 (roundAwayI (v / 100 * 255)))
  | none =>
      match parseFloat? num with
      | some vf =>
          if 0 ≤ vf ∧ vf ≤ 1 then .ok (intToU8 (roundAwayI (vf * 255)))
          else alphaIntFallback num
      | none => alphaIntFallback num

/-- The `nibble` closure of `parse_hex`. -/
def nibble (c : Char) : Option ℕ :=
  if '0' ≤ c ∧ c ≤ '9' then some (c.toNat - '0'.toNat)
  else if 'a' ≤ c ∧ c ≤ 'f' then some (c.toNat - 'a'.toNat + 10)
  else if 'A' ≤ c ∧ c ≤ 'F' then some (c.toNat - 'A'.toNat + 10)
  else none

/-- A nibble, or `InvalidHex` (`.ok_or(InvalidHex)`). -/
def nib (c : Char) : Except ColorParseError ℕ :=
  match nibble c with
  | some d => .ok d
  | none => .error .InvalidHex

/-- The `nibble2` closure of `parse_hex`: `h << 4 | l`. -/
def nibble2 (hi lo : Char) : Except ColorParseError ℕ := do
  let h ← nib hi
  let l ← nib lo
  .ok (h <<< 4 ||| l)

/-- `parse_hex`: 3/4/6/8 hex digits (`#` already stripped by the caller);
3- and 4-digit forms replicate each nibble (`d * 17`). -/
def parse_hex (hex : List Char) : Except ColorParseError Color :=
  match hex with
  | [c0, c1, c2] => do
      let r ← nib c0
      let g ← nib c1
      let b ← nib c2
      .ok (Color.from_rgba (r * 17, g * 17, b * 17, 255))
  | [c0, c1, c2, c3] => do
      let r ← nib c0
      let g ← nib c1
      let b ← nib c2
      let a ← nib c3
      .ok (Color.from_rgba (r * 17, g * 17, b * 17, a * 17))
  | [c0, c1, c2, c3, c4, c5] => do
      let r ← nibble2 c0 c1
      let g ← nibble2 c2 c3
      let b ← nibble2 c4 c5
      .ok (Color.from_rgba (r, g, b, 255))
  | [c0, c1, c2, c3, c4, c5, c6, c7] => do
      let r ← nibble2 c0 c1
      let g ← nibble2 c2 c3
      let b ← nibble2 c4 c5
      let a ← nibble2 c6 c7
      .ok (Color.from_rgba (r, g, b, a))
  | _ => .error .InvalidLength

/-- The legacy (comma) grammar loop of `parse_css_rgb`. -/
def legacyLoop : List CssColorToken → List (List Char) →
    Except ColorParseError (List (List Char) × Option (List Char))
  | [], comps => .ok (comps, none)
  | .Number s :: [], comps => .ok (comps ++ [s], none)
  | .Number s :: .Comma :: rest, comps => legacyLoop rest (comps ++ [s])
  | .Number s :: .Slash :: .Number a :: rest, comps =>
      if rest = [] then .ok (comps ++ [s], some a) else .error .InvalidFunc
  | .Number _ :: .Slash :: _, _ => .error .InvalidToken
  | .Number _ :: _ :: _, _ => .error .InvalidToken
  | _ :: _, _ => .error .InvalidFunc

/-- The modern (space/slash) grammar loop of `parse_css_rgb`. -/
def modernLoop : List CssColorToken → List (List Char) → Option (List Char) →
    Except ColorParseError (List (List Char) × Option (List Char))
  | [], comps, alpha => .ok (comps, alpha)
  | .Number s :: rest, comps, alpha =>
      if alpha.isSome then .error .InvalidFunc
      else modernLoop rest (comps ++ [s]) alpha
  | .Slash :: rest, comps, alpha =>
      if alpha.isSome then .error .InvalidFunc
      else
        match rest with
        | .Number a :: rest' => modernLoop rest' comps (some a)
        | _ => .error .InvalidToken
  | .Comma :: _, _, _ => .error .InvalidToken

/-- `parse_css_rgb`: tokenize, choose legacy/modern grammar by comma
presence, require exactly three color components. -/
def parse_css_rgb (args : List Char) : Except ColorParseError Color :=
  match tokenize args with
  | .error e => .error e
  | .ok tokens =>
    if tokens = [] then .error .InvalidFunc
    else
      match (if tokens.any (fun t => t matches .Comma) then legacyLoop tokens []
             else modernLoop tokens [] none) with
      | .error e => .error e
      | .ok (comps, alpha) =>
        match comps with
        | [s1, s2, s3] => do
            let r ← parse_rgb_component s1
            let g ← parse_rgb_component s2
            let b ← parse_rgb_component s3
            let a ← match alpha with
              | some sa => parse_alpha_component sa
              | none => .ok 255
            .ok (Color.from_rgba (r, g, b, a))
        | _ => .error .InvalidFunc

/-- The R/G/B field resolution of `parse_css_rgba`:
`parse::<u16>().ok().filter(≤ 255).ok_or(OutOfRange)`. -/
def rgbaIntComp (l : List Char) : Except ColorParseError ℕ :=
  match parseU16? l with
  | some v => if v ≤ 255 then .ok v else .error .OutOfRange
  | none => .error .OutOfRange

/-- `parse_css_rgba`: split on commas into exactly four trimmed fields;
R,G,B as integers 0-255; alpha first as a float clamped into `[0,1]` and
scaled, else as an integer 0-255. -/
def parse_css_rgba (args : List Char) : Except ColorParseError Color :=
  let nums := (args.splitOn ',').map trimChars
  match nums with
  | [n0, n1, n2, n3] => do
      let r ← rgbaIntComp n0
      let g ← rgbaIntComp n1
      let b ← rgbaIntComp n2
      let a ← match parseFloat? n3 with
        | some f => .ok (asU8 (clampQ f 0 1 * 255 + 0.5))
        | none => rgbaIntComp n3
      .ok (Color.from_rgba (r, g, b, a))
  | _ => .error .InvalidFunc

/-- `parse_color`: trim; empty is `Empty`; `#` dispatches to `parse_hex`;
case-insensitive `rgb(...)`/`rgba(...)` wrappers dispatch to the function
parsers; anything else is `InvalidFunc`. -/
def parse_color (s0 : List Char) : Except ColorParseError Color :=
  if trimChars s0 = [] then .error .Empty
  else
    let s := trimChars s0
    match s with
    | '#' :: rest => parse_hex (trimChars rest)
    | _ =>
      let lower := s.map toLowerChar
      match (stripLead (['r', 'g', 'b', '(']) lower).bind (stripSuffixChar ')') with
      | some args => parse_css_rgb args
      | none =>
        match (stripLead (['r', 'g', 'b', 'a', '(']) lower).bind (stripSuffixChar ')') with
        | some args => parse_css_rgba args
        | none => .error .InvalidFunc

/-! ## Helper lemmas -/

theorem intToU8_le (n : ℤ) : intToU8 n ≤ 255 := by
  unfold intToU8; omega

theorem asU8_le (q : ℚ) : asU8 q ≤ 255 := intToU8_le _

theorem intToU8_coe (n : ℕ) (h : n ≤ 255) : intToU8 (n : ℤ) = n := by
  unfold intToU8; omega

theorem floor_nat_add_half (n : ℕ) : ⌊(n : ℚ) + 1 / 2⌋ = n := by
  rw [Int.floor_eq_iff]
  push_cast
  norm_num

/-- `(n + 0.5).floor() as u8` recovers `n` for a channel-sized `n`. -/
theorem asU8_nat_add_half (n : ℕ) (h : n ≤ 255) : asU8 ((n : ℚ) + 1 / 2) = n := by
  unfold asU8
  rw [floor_nat_add_half]
  exact intToU8_coe n h

theorem clampQ_eq_self (v : ℚ) (h0 : 0 ≤ v) (h1 : v ≤ 1) : clampQ v 0 1 = v := by
  unfold clampQ
  rw [max_eq_left h0, min_eq_left h1]

/-- The facts about `powf(2.4)` / `powf(1/2.4)` used by the transfer
round-trip: monotone on `[0,1]`, fixes 1, nonnegative, above the encode
threshold at the decode value of channel 11, and mutually inverse on
`[0,1]`.  (All hold for the real power functions; `id` is a witness.) -/
def PwSpec (pw pwInv : ℚ → ℚ) : Prop :=
  (∀ a b : ℚ, 0 ≤ a → a ≤ b → b ≤ 1 → pw a ≤ pw b) ∧
  pw 1 = 1 ∧
  (∀ b : ℚ, 0 ≤ b → b ≤ 1 → 0 ≤ pw b) ∧
  0.0031308 < pw (1001 / 10761) ∧
  (∀ b : ℚ, 0 ≤ b → b ≤ 1 → pwInv (pw b) = b)

theorem pwSpec_id : PwSpec id id :=
  ⟨fun _ _ _ h _ => h, rfl, fun _ hb _ => hb, by norm_num, fun _ _ _ => rfl⟩

/-- On every `u8` input the sRGB decode-encode round trip is the identity
(in exact arithmetic). -/
theorem encode_decode_srgb (pw pwInv : ℚ → ℚ) (hp : PwSpec pw pwInv)
    (x : ℕ) (hx : x ≤ 255) :
    Color.encode_srgb pwInv (Color.decode_srgb pw x) = x := by
  obtain ⟨hmono, hone, hpos, hthr, hinv⟩ := hp
  have hx' : (x : ℚ) ≤ 255 := by exact_mod_cast hx
  have hx0 : (0 : ℚ) ≤ (x : ℚ) := by positivity
  simp only [Color.decode_srgb, Color.encode_srgb]
  by_cases hb : ((x : ℚ) / 255) ≤ 0.04045
  · rw [if_pos hb]
    have hx10 : (x : ℚ) ≤ 10 := by
      have : x < 11 := by
        by_contra hlt
        push_neg at hlt
        have : (11 : ℚ) ≤ (x : ℚ) := by exact_mod_cast hlt
        linarith
      have : x ≤ 10 := by omega
      exact_mod_cast this
    have h0 : (0 : ℚ) ≤ (x : ℚ) / 255 / 12.92 := by positivity
    have h1 : (x : ℚ) / 255 / 12.92 ≤ 1 := by
      rw [div_div, div_le_one (by norm_num)]; linarith
    rw [clampQ_eq_self _ h0 h1]
    have hth : (x : ℚ) / 255 / 12.92 ≤ 0.0031308 := by
      rw [div_div, div_le_iff₀ (by norm_num)]; norm_num; linarith
    rw [if_pos hth]
    have : 12.92 * ((x : ℚ) / 255 / 12.92) * 255 + 0.5 = (x : ℚ) + 1 / 2 := by ring
    rw [this, asU8_nat_add_half x hx]
  · rw [if_neg hb]
    push_neg at hb
    have hx11 : (11 : ℚ) ≤ (x : ℚ) := by
      by_contra hlt
      push_neg at hlt
      have : x ≤ 10 := by exact_mod_cast Nat.lt_succ_iff.mp (by exact_mod_cast hlt)
      have : (x : ℚ) ≤ 10 := by exact_mod_cast this
      linarith
    have hb0 : (1001 / 10761 : ℚ) ≤ ((x : ℚ) / 255 + 0.055) / 1.055 := by
      rw [le_div_iff₀ (by norm_num)]; norm_num; linarith
    have hbnn : (0 : ℚ) ≤ ((x : ℚ) / 255 + 0.055) / 1.055 := by positivity
    have hb1 : ((x : ℚ) / 255 + 0.055) / 1.055 ≤ 1 := by
      rw [div_le_one (by norm_num)]; linarith
    have hpw0 : 0 ≤ pw (((x : ℚ) / 255 + 0.055) / 1.055) := hpos _ hbnn hb1
    have hpw1 : pw (((x : ℚ) / 255 + 0.055) / 1.055) ≤ 1 := by
      calc pw (((x : ℚ) / 255 + 0.055) / 1.055) ≤ pw 1 := hmono _ 1 hbnn hb1 le_rfl
        _ = 1 := hone
    rw [clampQ_eq_self _ hpw0 hpw1]
    have hgt : ¬ pw (((x : ℚ) / 255 + 0.055) / 1.055) ≤ 0.0031308 := by
      have := hmono (1001 / 10761) _ (by norm_num) hb0 hb1
      push_neg
      linarith
    rw [if_neg hgt, hinv _ hbnn hb1]
    have : (1.055 * (((x : ℚ) / 255 + 0.055) / 1.055) - 0.055) * 255 + 0.5
        = (x : ℚ) + 1 / 2 := by ring
    rw [this, asU8_nat_add_half x hx]

theorem encode_srgb_le (pwInv : ℚ → ℚ) (q : ℚ) : Color.encode_srgb pwInv q ≤ 255 := by
  simp only [Color.encode_srgb]
  split <;> exact asU8_le _

theorem from_linear_valid (pwInv : ℚ → ℚ) (lin : ℚ × ℚ × ℚ × ℚ) :
    (Color.from_linear pwInv lin).Valid :=
  ⟨encode_srgb_le _ _, encode_srgb_le _ _, encode_srgb_le _ _, asU8_le _⟩

/-- The alpha of `from_linear` applied to the alpha fraction of a `u8`
channel is that channel back. -/
theorem from_linear_alpha (pwInv : ℚ → ℚ) (lin : ℚ × ℚ × ℚ × ℚ) (n : ℕ)
    (hn : n ≤ 255) (ha : lin.2.2.2 = (n : ℚ) / 255) :
    (Color.from_linear pwInv lin).a = n := by
  have hn' : (n : ℚ) ≤ 255 := by exact_mod_cast hn
  simp only [Color.from_linear, ha]
  rw [clampQ_eq_self _ (by positivity) (by linarith)]
  have : (n : ℚ) / 255 * 255 + 0.5 = (n : ℚ) + 1 / 2 := by ring
  rw [this, asU8_nat_add_half n hn]

/-- Decoding any `u8` value lands in the unit interval, provided the decode
exponential maps `[0,1]` into `[0,1]`. -/
theorem decode_srgb_unit (pw : ℚ → ℚ)
    (hpw : ∀ b : ℚ, 0 ≤ b → b ≤ 1 → 0 ≤ pw b ∧ pw b ≤ 1)
    (x : ℕ) (hx : x ≤ 255) :
    0 ≤ Color.decode_srgb pw x ∧ Color.decode_srgb pw x ≤ 1 := by
  have hx' : (x : ℚ) ≤ 255 := by exact_mod_cast hx
  have hx0 : (0 : ℚ) ≤ (x : ℚ) := by positivity
  simp only [Color.decode_srgb]
  by_cases hb : ((x : ℚ) / 255) ≤ 0.04045
  · rw [if_pos hb]
    refine ⟨by positivity, ?_⟩
    rw [div_div, div_le_one (by norm_num)]
    linarith
  · rw [if_neg hb]
    push_neg at hb
    refine hpw _ (by positivity) ?_
    rw [div_le_one (by norm_num)]
    linarith

/-- The alpha channel of `from_oklab` is always 255 (it builds the linear
quadruple with constant alpha `1.0`). -/
theorem from_oklab_alpha (pwInv : ℚ → ℚ) (lab : ℚ × ℚ × ℚ) :
    (Color.from_oklab pwInv lab).a = 255 := by
  simp only [Color.from_oklab, Color.from_linear]
  norm_num [clampQ, asU8, intToU8]
  rfl

/-! ## Claim theorems -/

/-- C10: the claim says `lighten_hsl(c, 0.0)` is the identity up to ±1 per
channel.  The code instead clamps the percent-scaled lightness (range 0-100)
into `[0, 1]`, so lightening WHITE by 0 yields `(3, 3, 3, 255)`: the claim is
right about the intent (the function's own doc says "0.0-1.0 HSL space") and
the code is wrong. -/
theorem lighten_hsl_zero_crushes_white :
    Color.lighten_hsl ⟨255, 255, 255, 255⟩ 0 = ⟨3, 3, 3, 255⟩ := by
  norm_num [Color.lighten_hsl, Color.into_hsl, Color.from_hsl, qRemEuclid, qRem, qTrunc,
    clampQ, asU8, intToU8, Int.toNat_ofNat]
  rfl

/-- C5 counterexample: the HSL round trip does not carry alpha through —
`from_hsl` hard-codes alpha 255, so a color with alpha 128 comes back with
alpha 255. -/
theorem hsl_roundtrip_resets_alpha_cex :
    Color.from_hsl (Color.into_hsl ⟨0, 0, 0, 128⟩) = ⟨0, 0, 0, 255⟩ ∧ (255 : ℕ) ≠ 128 := by
  constructor
  · norm_num [Color.into_hsl, Color.from_hsl, qRemEuclid, qRem, qTrunc, asU8, intToU8,
      Int.toNat_ofNat]
  · decide

/-- C5 (amended): the linear round trip preserves alpha exactly, but the
3-component `from_hsl`, `from_oklab` and `from_oklch` constructors always
return alpha 255, so the HSL/OKLab/OKLCH round trips reset alpha instead of
carrying it through. -/
theorem alpha_through_roundtrips :
    (∀ (pw pwInv : ℚ → ℚ) (c : Color), c.a ≤ 255 →
      (Color.from_linear pwInv (Color.into_linear pw c)).a = c.a) ∧
    (∀ hsl : ℚ × ℚ × ℚ, (Color.from_hsl hsl).a = 255) ∧
    (∀ (pwInv : ℚ → ℚ) (lab : ℚ × ℚ × ℚ), (Color.from_oklab pwInv lab).a = 255) ∧
    (∀ (pw pwInv cosr sinr : ℚ → ℚ) (lch : ℚ × ℚ × ℚ),
      (Color.from_oklch pw pwInv cosr sinr lch).a = 255) := by
  refine ⟨?_, ?_, ?_, ?_⟩
  · intro pw pwInv c hc
    exact from_linear_alpha pwInv _ c.a hc rfl
  · intro hsl
    rfl
  · intro pwInv lab
    exact from_oklab_alpha pwInv lab
  · intro pw pwInv cosr sinr lch
    simp only [Color.from_oklch]
    split
    · exact from_oklab_alpha _ _
    · exact from_oklab_alpha _ _

/-- C5 witness: the amended statement applied at a concrete color. -/
theorem alpha_through_roundtrips_witness :
    (Color.from_linear id (Color.into_linear id ⟨1, 2, 3, 77⟩)).a = 77 :=
  alpha_through_roundtrips.1 id id ⟨1, 2, 3, 77⟩ (by decide)

/-- C4 counterexample: with a fully-transparent destination the source is
NOT returned unmodified — `over_srgb_fast` first replaces the destination by
the source and then composites the source over itself, which inflates the
alpha (128 becomes 192) while keeping the RGB channels. -/
theorem over_srgb_fast_transparent_dst_cex :
    Color.over_srgb_fast ⟨100, 0, 0, 128⟩ ⟨0, 0, 0, 0⟩ = ⟨100, 0, 0, 192⟩ ∧
      (192 : ℕ) ≠ 128 := by
  constructor
  · norm_num [Color.over_srgb_fast, asU8, intToU8]
    omega
  · decide

/-- C4 (amended): if the source alpha is 0 and the destination alpha is
nonzero, `over_srgb_fast` returns the destination unmodified.  If the
destination alpha is 0, the destination is first replaced by the source, so
the result carries the source's RGB channels unchanged but its alpha is
`round(255·(s + s·(1-s)))` with `s = src.a/255` — the source comes back
unmodified only when its alpha is 0 or 255. -/
theorem over_srgb_fast_alpha_cases :
    (∀ src dst : Color, src.a = 0 → dst.a ≠ 0 → Color.over_srgb_fast src dst = dst) ∧
    (∀ src dst : Color, dst.a = 0 → src.Valid →
      Color.over_srgb_fast src dst =
        ⟨src.r, src.g, src.b,
          asU8 (((src.a : ℚ) / 255 + (src.a : ℚ) / 255 * (1 - (src.a : ℚ) / 255)) * 255
            + 0.5)⟩) := by
  constructor
  · intro src dst h0 h1
    simp only [Color.over_srgb_fast, h0, if_neg h1]
    norm_num
  · intro src dst h0 hv
    obtain ⟨r, g, b, a⟩ := src
    obtain ⟨hr, hg, hb, ha⟩ := hv
    simp only at hr hg hb ha
    by_cases hz : a = 0
    · subst hz
      simp only [Color.over_srgb_fast, h0, if_pos]
      norm_num [asU8, intToU8]
    · have ha1 : (1 : ℚ) ≤ (a : ℚ) := by exact_mod_cast Nat.one_le_iff_ne_zero.mpr hz
      have ha255 : (a : ℚ) ≤ 255 := by exact_mod_cast ha
      have hsa : ¬ ((a : ℚ) / 255 ≤ 0) := by
        push_neg
        positivity
      simp only [Color.over_srgb_fast, h0, if_pos, if_neg hsa]
      have houtpos : (1e-6 : ℚ) ≤ (a : ℚ) / 255 + (a : ℚ) / 255 * (1 - (a : ℚ) / 255) := by
        have h1 : (1 : ℚ) / 255 ≤ (a : ℚ) / 255 := by linarith
        have h2 : (0 : ℚ) ≤ (a : ℚ) / 255 * (1 - (a : ℚ) / 255) := by
          have : (a : ℚ) / 255 ≤ 1 := by linarith
          have : (0 : ℚ) ≤ 1 - (a : ℚ) / 255 := by linarith
          positivity
        linarith
      have hmax : max ((a : ℚ) / 255 + (a : ℚ) / 255 * (1 - (a : ℚ) / 255)) 1e-6
          = (a : ℚ) / 255 + (a : ℚ) / 255 * (1 - (a : ℚ) / 255) :=
        max_eq_left houtpos
      have hne : ((a : ℚ) / 255 + (a : ℚ) / 255 * (1 - (a : ℚ) / 255)) ≠ 0 := by
        intro hc
        rw [hc] at houtpos
        norm_num at houtpos
      have hch : ∀ sc : ℕ, sc ≤ 255 →
          asU8 (((sc : ℚ) / 255 * ((a : ℚ) / 255)
              + (sc : ℚ) / 255 * ((a : ℚ) / 255) * (1 - (a : ℚ) / 255))
            / max ((a : ℚ) / 255 + (a : ℚ) / 255 * (1 - (a : ℚ) / 255)) 1e-6 * 255 + 0.5)
            = sc := by
        intro sc hsc
        rw [hmax]
        have hfac : ((sc : ℚ) / 255 * ((a : ℚ) / 255)
              + (sc : ℚ) / 255 * ((a : ℚ) / 255) * (1 - (a : ℚ) / 255))
            = (sc : ℚ) / 255 * ((a : ℚ) / 255 + (a : ℚ) / 255 * (1 - (a : ℚ) / 255)) := by
          ring
        rw [hfac, mul_div_assoc, div_self hne, mul_one]
        have : (sc : ℚ) / 255 * 255 + 0.5 = (sc : ℚ) + 1 / 2 := by
          ring
        rw [this, asU8_nat_add_half sc hsc]
      simp only [Color.mk.injEq]
      exact ⟨hch r hr, hch g hg, hch b hb, trivial⟩

/-- C4 witness: the amended statement applied at concrete colors. -/
theorem over_srgb_fast_alpha_cases_witness :
    Color.over_srgb_fast ⟨9, 9, 9, 0⟩ ⟨1, 2, 3, 4⟩ = ⟨1, 2, 3, 4⟩ :=
  over_srgb_fast_alpha_cases.1 ⟨9, 9, 9, 0⟩ ⟨1, 2, 3, 4⟩ rfl (by decide)

/-- C1: the gamut test of `from_oklch` decodes the already quantized and
clamped `Color` produced by `from_oklab`, and decoding a `u8` channel always
lands in `[0, 1]`.  So (in exact arithmetic) the `within` test always
passes, the 24-iteration bisection is unreachable, and `from_oklch` returns
the clamped direct conversion even for far out-of-gamut inputs — the code
never performs the chroma reduction that the claim (and its own comment)
describe. -/
theorem from_oklch_never_bisects (pw pwInv cosr sinr : ℚ → ℚ)
    (hpw : ∀ b : ℚ, 0 ≤ b → b ≤ 1 → 0 ≤ pw b ∧ pw b ≤ 1) (lch : ℚ × ℚ × ℚ) :
    Color.from_oklch pw pwInv cosr sinr lch =
      Color.from_oklab pwInv (Color.oklch_to_oklab cosr sinr lch) := by
  have hval : (Color.from_oklab pwInv (Color.oklch_to_oklab cosr sinr lch)).Valid := by
    simp only [Color.from_oklab]
    exact from_linear_valid _ _
  obtain ⟨h1, h2, h3, _⟩ := hval
  have hw : Color.withinUnit
      (Color.oklchToSrgbLin pw pwInv cosr sinr lch) = true := by
    simp only [Color.withinUnit, Color.oklchToSrgbLin, Color.into_linear, decide_eq_true_eq]
    obtain ⟨d1a, d1b⟩ := decode_srgb_unit pw hpw _ h1
    obtain ⟨d2a, d2b⟩ := decode_srgb_unit pw hpw _ h2
    obtain ⟨d3a, d3b⟩ := decode_srgb_unit pw hpw _ h3
    exact ⟨d1a, d1b, d2a, d2b, d3a, d3b⟩
  simp only [Color.from_oklch, hw, if_true]

/-- C1 witness: the theorem applied at a concrete (far out-of-gamut) input
with `id` standing in for the transcendental parameters. -/
theorem from_oklch_never_bisects_witness :
    Color.from_oklch id id id id (1/2, 10, 0) =
      Color.from_oklab id (Color.oklch_to_oklab id id (1/2, 10, 0)) :=
  from_oklch_never_bisects id id id id (fun _ h0 h1 => ⟨h0, h1⟩) (1/2, 10, 0)

/-- C2 counterexample: when both alphas are 0, `blend_over(src, bg, Normal)`
returns the backdrop verbatim (its early return fires before the Normal
check), while `over(src, bg)` hits its `out_a = 0` branch and returns
transparent black — so they differ on `src = (0,0,0,0)`, `bg = (1,0,0,0)`.
(The transcendental parameters are never consulted on this input: every
channel decodes through the linear segment.) -/
theorem blend_over_normal_ne_over_cex :
    Color.blend_over id id id ⟨0, 0, 0, 0⟩ ⟨1, 0, 0, 0⟩ .Normal = ⟨1, 0, 0, 0⟩ ∧
    Color.over id id ⟨0, 0, 0, 0⟩ ⟨1, 0, 0, 0⟩ = ⟨0, 0, 0, 0⟩ ∧
    Color.blend_over id id id ⟨0, 0, 0, 0⟩ ⟨1, 0, 0, 0⟩ .Normal ≠
      Color.over id id ⟨0, 0, 0, 0⟩ ⟨1, 0, 0, 0⟩ := by
  have h1 : Color.blend_over id id id ⟨0, 0, 0, 0⟩ ⟨1, 0, 0, 0⟩ .Normal = ⟨1, 0, 0, 0⟩ := by
    norm_num [Color.blend_over]
  have h2 : Color.over id id ⟨0, 0, 0, 0⟩ ⟨1, 0, 0, 0⟩ = ⟨0, 0, 0, 0⟩ := by
    norm_num [Color.over, Color.into_linear, Color.from_linear, Color.decode_srgb,
      Color.encode_srgb, clampQ, asU8, intToU8]
  refine ⟨h1, h2, ?_⟩
  rw [h1, h2]
  intro hc
  exact absurd (congrArg Color.r hc) (by decide)

/-- C2 (amended): `blend_over(src, bg, Normal)` agrees with `over(src, bg)`
whenever at least one of the two alphas is nonzero; when both are 0 the two
sides differ as the counterexample shows (`blend_over` returns `bg`, `over`
returns transparent black). -/
theorem blend_over_normal_eq_over (pw pwInv sq : ℚ → ℚ) (hp : PwSpec pw pwInv)
    (src bg : Color) (hbv : bg.Valid) (h : src.a ≠ 0 ∨ bg.a ≠ 0) :
    Color.blend_over pw pwInv sq src bg .Normal = Color.over pw pwInv src bg := by
  by_cases ha : src.a = 0
  · have hb : bg.a ≠ 0 := by
      rcases h with h | h
      · exact absurd ha h
      · exact h
    obtain ⟨R, G, B, A⟩ := bg
    obtain ⟨r, g, b, a⟩ := src
    simp only at ha hb
    obtain ⟨h1, h2, h3, h4⟩ := hbv
    simp only at h1 h2 h3 h4
    subst ha
    have hbq : (0 : ℚ) < (A : ℚ) / 255 := by
      have : (1 : ℚ) ≤ (A : ℚ) := by exact_mod_cast Nat.one_le_iff_ne_zero.mpr hb
      positivity
    have hbne : ((A : ℚ) / 255) ≠ 0 := ne_of_gt hbq
    have hkey : Color.over pw pwInv ⟨r, g, b, 0⟩ ⟨R, G, B, A⟩ =
        Color.from_linear pwInv (Color.decode_srgb pw R, Color.decode_srgb pw G,
          Color.decode_srgb pw B, (A : ℚ) / 255) := by
      simp only [Color.over, Color.into_linear]
      norm_num
      rw [if_pos (Nat.pos_of_ne_zero hb)]
      have hch : ∀ q : ℚ, q * ((A : ℚ) / 255) / ((A : ℚ) / 255) = q := by
        intro q
        rw [mul_div_assoc, div_self hbne, mul_one]
      simp only [hch]
    have hbo : Color.blend_over pw pwInv sq ⟨r, g, b, 0⟩ ⟨R, G, B, A⟩ .Normal
        = ⟨R, G, B, A⟩ := by
      simp [Color.blend_over]
    rw [hbo, hkey]
    have e1 := encode_decode_srgb pw pwInv hp R h1
    have e2 := encode_decode_srgb pw pwInv hp G h2
    have e3 := encode_decode_srgb pw pwInv hp B h3
    have e4 : (Color.from_linear pwInv (Color.decode_srgb pw R, Color.decode_srgb pw G,
        Color.decode_srgb pw B, (A : ℚ) / 255)).a = A :=
      from_linear_alpha pwInv _ A h4 rfl
    simp only [Color.from_linear, Color.mk.injEq] at e4 ⊢
    exact ⟨e1.symm, e2.symm, e3.symm, e4.symm⟩
  · simp [Color.blend_over, ha]

/-- C2 witness: the amended statement applied at concrete colors with `id`
standing in for the transcendental parameters. -/
theorem blend_over_normal_eq_over_witness :
    Color.blend_over id id id ⟨1, 2, 3, 255⟩ ⟨4, 5, 6, 7⟩ .Normal =
      Color.over id id ⟨1, 2, 3, 255⟩ ⟨4, 5, 6, 7⟩ :=
  blend_over_normal_eq_over id id id pwSpec_id ⟨1, 2, 3, 255⟩ ⟨4, 5, 6, 7⟩ (by decide)
    (Or.inl (by decide))

theorem dropWhile_eq_self_of_nws (p : Char → Bool) (l : List Char)
    (h : ∀ c ∈ l, p c = false) : l.dropWhile p = l := by
  cases l with
  | nil => rfl
  | cons a t =>
      rw [List.dropWhile_cons, h a (List.mem_cons_self a t)]
      simp

theorem trimChars_eq_self (l : List Char) (h : ∀ c ∈ l, isWsChar c = false) :
    trimChars l = l := by
  unfold trimChars
  rw [dropWhile_eq_self_of_nws _ _ h,
    dropWhile_eq_self_of_nws _ _ (fun c hc => h c (List.mem_reverse.mp hc))]
  exact List.reverse_reverse l

theorem hexDig_not_ws : ∀ d < 16, isWsChar (Color.hexDig d) = false := by decide

theorem nibble_hexDig : ∀ d < 16, nibble (Color.hexDig d) = some d := by decide

theorem shiftor_eq : ∀ h < 16, ∀ l < 16, h <<< 4 ||| l = 16 * h + l := by decide

/-- Parsing the two uppercase hex digits of a byte recovers the byte. -/
theorem nibble2_hexByte (n : ℕ) (hn : n ≤ 255) :
    nibble2 (Color.hexDig (n / 16)) (Color.hexDig (n % 16)) = .ok n := by
  have hh : n / 16 < 16 := by omega
  have hl : n % 16 < 16 := by omega
  unfold nibble2
  rw [nib, nibble_hexDig _ hh, nib, nibble_hexDig _ hl]
  show Except.ok ((n / 16) <<< 4 ||| n % 16) = Except.ok n
  rw [shiftor_eq _ hh _ hl]
  have h16 : 16 * (n / 16) + n % 16 = n := by omega
  rw [h16]

/-- C3: the canonical 8-digit uppercase hex display of any valid color
parses back (via `parse_color`) to the identical color, alpha included. -/
theorem parse_color_display_roundtrip (c : Color) (hv : c.Valid) :
    parse_color (Color.displayColor c) = .ok c := by
  obtain ⟨r, g, b, a⟩ := c
  obtain ⟨hr, hg, hb, ha⟩ := hv
  simp only at hr hg hb ha
  have hby : ∀ (n : ℕ), n ≤ 255 → ∀ ch ∈ Color.hexByte n, isWsChar ch = false := by
    intro n hn ch hch
    simp only [Color.hexByte, List.mem_cons, List.not_mem_nil, or_false] at hch
    rcases hch with h | h
    · rw [h]
      exact hexDig_not_ws _ (by omega)
    · rw [h]
      exact hexDig_not_ws _ (by omega)
  have hbody : ∀ ch ∈ (Color.hexByte r ++ Color.hexByte g ++ Color.hexByte b
      ++ Color.hexByte a), isWsChar ch = false := by
    intro ch hch
    rcases List.mem_append.mp hch with h1 | h1
    · rcases List.mem_append.mp h1 with h2 | h2
      · rcases List.mem_append.mp h2 with h3 | h3
        · exact hby r hr ch h3
        · exact hby g hg ch h3
      · exact hby b hb ch h2
    · exact hby a ha ch h1
  have hnws : ∀ ch ∈ ('#' :: (Color.hexByte r ++ Color.hexByte g ++ Color.hexByte b
      ++ Color.hexByte a)), isWsChar ch = false := by
    intro ch hch
    rcases List.mem_cons.mp hch with h | h
    · rw [h]
      decide
    · exact hbody ch h
  have htr := trimChars_eq_self _ hnws
  have htr2 := trimChars_eq_self _ hbody
  show parse_color ('#' :: (Color.hexByte r ++ Color.hexByte g ++ Color.hexByte b
      ++ Color.hexByte a)) = _
  rw [parse_color, if_neg (by rw [htr]; exact List.cons_ne_nil _ _)]
  simp only [htr]
  show parse_hex (trimChars (Color.hexByte r ++ Color.hexByte g ++ Color.hexByte b
      ++ Color.hexByte a)) = _
  rw [htr2]
  simp only [Color.hexByte, List.cons_append, List.nil_append]
  rw [parse_hex]
  simp only [nibble2_hexByte r hr, nibble2_hexByte g hg, nibble2_hexByte b hb,
    nibble2_hexByte a ha, Except.bind]
  rfl

/-- C3 witness: the round trip at a concrete color. -/
theorem parse_color_display_roundtrip_witness :
    parse_color (Color.displayColor ⟨171, 205, 239, 1⟩) = .ok ⟨171, 205, 239, 1⟩ :=
  parse_color_display_roundtrip ⟨171, 205, 239, 1⟩ (by decide)

theorem trim_cons_concat (a z : Char) (m : List Char)
    (ha : isWsChar a = false) (hz : isWsChar z = false) :
    trimChars (a :: (m ++ [z])) = a :: (m ++ [z]) := by
  unfold trimChars
  rw [List.dropWhile_cons, ha]
  simp only [Bool.false_eq_true, if_false]
  rw [show (a :: (m ++ [z])).reverse = z :: (m.reverse ++ [a]) from by simp]
  rw [List.dropWhile_cons, hz]
  simp only [Bool.false_eq_true, if_false]
  simp

theorem stripSuffixChar_concat (ch : Char) (l : List Char) :
    stripSuffixChar ch (l ++ [ch]) = some l := by
  unfold stripSuffixChar
  rw [List.getLast?_concat]
  simp [List.dropLast_concat]

/-- C6 counterexample: `rgba(...)` does not apply the `rgb(...)` grammar —
the modern space/slash form is accepted by `rgb(...)` but rejected by
`rgba(...)` with `InvalidFunc` (its parser only splits on commas and
requires exactly four fields). -/
theorem rgba_not_rgb_grammar_cex :
    parse_color ("rgba(255 0 0 / 0.5)".toList) = .error .InvalidFunc ∧
    parse_color ("rgb(255 0 0 / 0.5)".toList) = .ok ⟨255, 0, 0, 128⟩ := by
  constructor
  · rfl
  · have step : parse_color ("rgb(255 0 0 / 0.5)".toList) =
        (parse_alpha_component ("0.5".toList)).bind
          (fun a => .ok (Color.from_rgba (255, 0, 0, a))) := rfl
    have h5 : digitsToNat ['5'] = 5 := rfl
    have h00 : digitsToNat ['0'] = 0 := rfl
    have h0 : digitsToNat [] = 0 := rfl
    rw [step]
    norm_num +decide [parse_alpha_component, stripSuffixChar, parseFloat?, isAsciiDigit,
      h5, h00, h0, intToU8, roundAwayI, Color.from_rgba, Except.bind, Int.toNat_ofNat]

/-- C6 (amended): a case-insensitive `rgba(...)` wrapper dispatches to
`parse_css_rgba`, a separate comma-only parser: the argument text is split
on commas into exactly four trimmed fields (anything else is
`InvalidFunc`); R, G and B must be integers 0-255; the alpha field, when it
parses as a float, is clamped into `[0,1]` and scaled by 255 (so the
integer fallback only fires for non-float text, and `rgba(1,2,3,128)` gets
alpha 255, not 128), while `rgba(1,2,3,0.5)` gets alpha 128. -/
theorem parse_css_rgba_spec :
    (∀ s : List Char,
      parse_color ('r' :: 'g' :: 'b' :: 'a' :: '(' :: (s ++ [')'])) =
        parse_css_rgba (s.map toLowerChar)) ∧
    (∀ args : List Char, (args.splitOn ',').length ≠ 4 →
      parse_css_rgba args = .error .InvalidFunc) ∧
    parse_css_rgba ("1,2,3,128".toList) = .ok ⟨1, 2, 3, 255⟩ ∧
    parse_css_rgba ("1,2,3,0.5".toList) = .ok ⟨1, 2, 3, 128⟩ := by
  refine ⟨?_, ?_, ?_, ?_⟩
  · intro s
    have h1 : trimChars ('r' :: 'g' :: 'b' :: 'a' :: '(' :: (s ++ [')'])) =
        'r' :: 'g' :: 'b' :: 'a' :: '(' :: (s ++ [')']) := by
      have := trim_cons_concat 'r' ')' ('g' :: 'b' :: 'a' :: '(' :: s) (by decide) (by decide)
      simpa using this
    rw [parse_color, if_neg (by rw [h1]; exact List.cons_ne_nil _ _)]
    simp only [h1]
    have hmap : List.map toLowerChar ('r' :: 'g' :: 'b' :: 'a' :: '(' :: (s ++ [')'])) =
        'r' :: 'g' :: 'b' :: 'a' :: '(' :: (List.map toLowerChar s ++ [')']) := by
      simp only [List.map_cons, List.map_append, show toLowerChar 'r' = 'r' from rfl,
        show toLowerChar 'g' = 'g' from rfl, show toLowerChar 'b' = 'b' from rfl,
        show toLowerChar 'a' = 'a' from rfl, show toLowerChar '(' = '(' from rfl,
        show toLowerChar ')' = ')' from rfl, List.map_nil]
    simp only [hmap]
    have hs1 : stripLead ['r', 'g', 'b', '(']
        ('r' :: 'g' :: 'b' :: 'a' :: '(' :: (List.map toLowerChar s ++ [')'])) = none := rfl
    have hs2 : stripLead ['r', 'g', 'b', 'a', '(']
        ('r' :: 'g' :: 'b' :: 'a' :: '(' :: (List.map toLowerChar s ++ [')'])) =
        some (List.map toLowerChar s ++ [')']) := rfl
    rw [hs1, hs2]
    simp only [Option.none_bind, Option.some_bind, stripSuffixChar_concat]
    rfl
  · intro args h
    rw [parse_css_rgba]
    rcases hm : (args.splitOn ',').map trimChars with _ | ⟨n0, _ | ⟨n1, _ | ⟨n2, _ | ⟨n3, _ | ⟨n4, t⟩⟩⟩⟩⟩
    · rfl
    · rfl
    · rfl
    · rfl
    · exfalso
      have := congrArg List.length hm
      simp only [List.length_map, List.length_cons, List.length_nil] at this
      omega
    · rfl
  · have hsplit : (("1,2,3,128".toList).splitOn ',').map trimChars =
        [['1'], ['2'], ['3'], ['1', '2', '8']] := rfl
    rw [parse_css_rgba, hsplit]
    have hc1 : rgbaIntComp ['1'] = .ok 1 := rfl
    have hc2 : rgbaIntComp ['2'] = .ok 2 := rfl
    have hc3 : rgbaIntComp ['3'] = .ok 3 := rfl
    have h128 : digitsToNat ['1', '2', '8'] = 128 := rfl
    have h0 : digitsToNat [] = 0 := rfl
    have hf : parseFloat? ['1', '2', '8'] = some 128 := by
      norm_num +decide [parseFloat?, isAsciiDigit, h128, h0]
    simp only [hc1, hc2, hc3, hf, Except.bind]
    norm_num [clampQ, asU8, intToU8, Color.from_rgba]
    rfl
  · have hsplit : (("1,2,3,0.5".toList).splitOn ',').map trimChars =
        [['1'], ['2'], ['3'], ['0', '.', '5']] := rfl
    rw [parse_css_rgba, hsplit]
    have hc1 : rgbaIntComp ['1'] = .ok 1 := rfl
    have hc2 : rgbaIntComp ['2'] = .ok 2 := rfl
    have hc3 : rgbaIntComp ['3'] = .ok 3 := rfl
    have h5 : digitsToNat ['5'] = 5 := rfl
    have h00 : digitsToNat ['0'] = 0 := rfl
    have h0 : digitsToNat [] = 0 := rfl
    have hf : parseFloat? ['0', '.', '5'] = some (1 / 2) := by
      norm_num +decide [parseFloat?, isAsciiDigit, h5, h00, h0]
    simp only [hc1, hc2, hc3, hf, Except.bind]
    norm_num [clampQ, asU8, intToU8, Color.from_rgba]
    rfl

/-- C6 witness: the amended statement applied at concrete inputs. -/
theorem parse_css_rgba_spec_witness :
    parse_css_rgba ("1,2".toList) = .error .InvalidFunc :=
  parse_css_rgba_spec.2.1 ("1,2".toList)
    (by rw [show ("1,2".toList).splitOn ',' = [['1'], ['2']] from rfl]; decide)

/-- C8: component resolution of the `rgb()` parser.  A percentage `N%`
succeeds exactly when `0 ≤ N ≤ 100` (yielding `round(N/100·255)`) and fails
with `OutOfRange` otherwise; a bare token that parses as an integer succeeds
exactly when it is at most 255, else `OutOfRange`; a bare non-integer token
with float value `v` succeeds exactly when `v ∈ [0, 255]` (then rounded),
else `OutOfRange`; and `parse_color("rgb(256,0,0)")` fails with
`OutOfRange`. -/
theorem parse_rgb_component_spec :
    (∀ (s : List Char) (v : ℚ), parseFloat? s = some v →
      parse_rgb_component (s ++ ['%']) =
        if 0 ≤ v ∧ v ≤ 100 then .ok (intToU8 (roundAwayI (v / 100 * 255)))
        else .error .OutOfRange) ∧
    (∀ (s : List Char) (n : ℕ), stripSuffixChar '%' s = none → parseU16? s = some n →
      parse_rgb_component s = if n ≤ 255 then .ok n else .error .OutOfRange) ∧
    (∀ (s : List Char) (v : ℚ), stripSuffixChar '%' s = none → parseU16? s = none →
      parseFloat? s = some v →
      parse_rgb_component s =
        if 0 ≤ v ∧ v ≤ 255 then .ok (intToU8 (roundAwayI v)) else .error .OutOfRange) ∧
    parse_color ("rgb(256,0,0)".toList) = .error .OutOfRange := by
  refine ⟨?_, ?_, ?_, rfl⟩
  · intro s v hf
    simp only [parse_rgb_component, stripSuffixChar_concat, hf]
    by_cases hv : 0 ≤ v ∧ v ≤ 100
    · rw [if_neg (not_not_intro hv), if_pos hv]
    · rw [if_pos hv, if_neg hv]
  · intro s n hp hu
    simp only [parse_rgb_component, hp, hu]
    by_cases h255 : n ≤ 255
    · rw [if_neg (by omega), if_pos h255]
    · rw [if_pos (by omega), if_neg h255]
  · intro s v hp hu hf
    simp only [parse_rgb_component, hp, hu, hf]
    by_cases hv : 0 ≤ v ∧ v ≤ 255
    · rw [if_neg (not_not_intro hv), if_pos hv]
    · rw [if_pos hv, if_neg hv]

/-- C8 witness: the component law applied to the tokens `256` and `50%`. -/
theorem parse_rgb_component_spec_witness :
    parse_rgb_component ("256".toList) = .error .OutOfRange ∧
    parse_rgb_component ("50%".toList) = .ok 128 := by
  constructor
  · have h := parse_rgb_component_spec.2.1 ("256".toList) 256 rfl rfl
    simpa using h
  · have hf : parseFloat? ("50".toList) = some 50 := by
      have h50 : digitsToNat ['5', '0'] = 50 := rfl
      have h0 : digitsToNat [] = 0 := rfl
      norm_num +decide [parseFloat?, isAsciiDigit, h50, h0]
    have h := parse_rgb_component_spec.1 ("50".toList) 50 hf
    rw [show ("50%".toList) = ("50".toList) ++ ['%'] from rfl, h,
      if_pos (by norm_num)]
    norm_num [roundAwayI, intToU8]
    rfl

theorem exceptBind_ok {α β : Type} (x : Except ColorParseError α)
    (f : α → Except ColorParseError β) (c : β)
    (h : (x >>= f) = .ok c) : ∃ a, x = .ok a ∧ f a = .ok c := by
  cases x with
  | ok a => exact ⟨a, rfl, h⟩
  | error e => simp [Bind.bind, Except.bind] at h

theorem nibble_le (c : Char) (d : ℕ) (h : nibble c = some d) : d ≤ 15 := by
  unfold nibble at h
  have e0 : '0'.toNat = 48 := rfl
  have ea : 'a'.toNat = 97 := rfl
  have eA : 'A'.toNat = 65 := rfl
  split at h
  · rename_i hc
    simp only [Option.some.injEq] at h
    have h9 : c.toNat ≤ 57 := hc.2
    omega
  · split at h
    · rename_i hc
      simp only [Option.some.injEq] at h
      have hf : c.toNat ≤ 102 := hc.2
      have hlo : 97 ≤ c.toNat := hc.1
      omega
    · split at h
      · rename_i hc
        simp only [Option.some.injEq] at h
        have hf : c.toNat ≤ 70 := hc.2
        have hlo : 65 ≤ c.toNat := hc.1
        omega
      · exact absurd h (by simp)

theorem nib_le (c : Char) (d : ℕ) (h : nib c = .ok d) : d ≤ 15 := by
  unfold nib at h
  rcases hn : nibble c with _ | d'
  · rw [hn] at h
    exact absurd h (by simp)
  · rw [hn] at h
    simp only [Except.ok.injEq] at h
    subst h
    exact nibble_le _ _ hn

theorem nibble2_le (hi lo : Char) (n : ℕ) (h : nibble2 hi lo = .ok n) : n ≤ 255 := by
  unfold nibble2 at h
  obtain ⟨dh, hdh, h⟩ := exceptBind_ok _ _ _ h
  obtain ⟨dl, hdl, h⟩ := exceptBind_ok _ _ _ h
  simp only [Except.ok.injEq] at h
  have h1 := nib_le _ _ hdh
  have h2 := nib_le _ _ hdl
  rw [shiftor_eq _ (by omega) _ (by omega)] at h
  omega

theorem parse_hex_valid (hex : List Char) (c : Color) (h : parse_hex hex = .ok c) :
    c.Valid := by
  rw [parse_hex.eq_def] at h
  split at h
  all_goals try { exact absurd h (by simp) }
  · obtain ⟨r, hr, h⟩ := exceptBind_ok _ _ _ h
    obtain ⟨g, hg, h⟩ := exceptBind_ok _ _ _ h
    obtain ⟨b, hb, h⟩ := exceptBind_ok _ _ _ h
    simp only [Except.ok.injEq] at h
    subst h
    have h1 := nib_le _ _ hr
    have h2 := nib_le _ _ hg
    have h3 := nib_le _ _ hb
    simp only [Color.from_rgba, Color.Valid]
    omega
  · obtain ⟨r, hr, h⟩ := exceptBind_ok _ _ _ h
    obtain ⟨g, hg, h⟩ := exceptBind_ok _ _ _ h
    obtain ⟨b, hb, h⟩ := exceptBind_ok _ _ _ h
    obtain ⟨a, ha, h⟩ := exceptBind_ok _ _ _ h
    simp only [Except.ok.injEq] at h
    subst h
    have h1 := nib_le _ _ hr
    have h2 := nib_le _ _ hg
    have h3 := nib_le _ _ hb
    have h4 := nib_le _ _ ha
    simp only [Color.from_rgba, Color.Valid]
    omega
  · obtain ⟨r, hr, h⟩ := exceptBind_ok _ _ _ h
    obtain ⟨g, hg, h⟩ := exceptBind_ok _ _ _ h
    obtain ⟨b, hb, h⟩ := exceptBind_ok _ _ _ h
    simp only [Except.ok.injEq] at h
    subst h
    have h1 := nibble2_le _ _ _ hr
    have h2 := nibble2_le _ _ _ hg
    have h3 := nibble2_le _ _ _ hb
    simp only [Color.from_rgba, Color.Valid]
    omega
  · obtain ⟨r, hr, h⟩ := exceptBind_ok _ _ _ h
    obtain ⟨g, hg, h⟩ := exceptBind_ok _ _ _ h
    obtain ⟨b, hb, h⟩ := exceptBind_ok _ _ _ h
    obtain ⟨a, ha, h⟩ := exceptBind_ok _ _ _ h
    simp only [Except.ok.injEq] at h
    subst h
    have h1 := nibble2_le _ _ _ hr
    have h2 := nibble2_le _ _ _ hg
    have h3 := nibble2_le _ _ _ hb
    have h4 := nibble2_le _ _ _ ha
    simp only [Color.from_rgba, Color.Valid]
    omega

theorem parse_rgb_component_le (s : List Char) (n : ℕ)
    (h : parse_rgb_component s = .ok n) : n ≤ 255 := by
  rw [parse_rgb_component] at h
  split at h
  · split at h
    · exact absurd h (by simp)
    · split at h
      · exact absurd h (by simp)
      · simp only [Except.ok.injEq] at h
        exact h ▸ intToU8_le _
  · split at h
    · split at h
      · exact absurd h (by simp)
      · simp only [Except.ok.injEq] at h
        rename_i hguard
        omega
    · split at h
      · exact absurd h (by simp)
      · split at h
        · exact absurd h (by simp)
        · simp only [Except.ok.injEq] at h
          exact h ▸ intToU8_le _

theorem parse_alpha_component_le (s : List Char) (n : ℕ)
    (h : parse_alpha_component s = .ok n) : n ≤ 255 := by
  have hfb : ∀ (m : ℕ), alphaIntFallback s = .ok m → m ≤ 255 := by
    intro m hm
    rw [alphaIntFallback] at hm
    split at hm
    · exact absurd hm (by simp)
    · split at hm
      · exact absurd hm (by simp)
      · simp only [Except.ok.injEq] at hm
        rename_i hguard
        omega
  rw [parse_alpha_component] at h
  split at h
  · split at h
    · exact absurd h (by simp)
    · split at h
      · exact absurd h (by simp)
      · simp only [Except.ok.injEq] at h
        exact h ▸ intToU8_le _
  · split at h
    · split at h
      · simp only [Except.ok.injEq] at h
        exact h ▸ intToU8_le _
      · exact hfb _ h
    · exact hfb _ h

theorem rgbaIntComp_le (s : List Char) (n : ℕ) (h : rgbaIntComp s = .ok n) :
    n ≤ 255 := by
  rw [rgbaIntComp] at h
  split at h
  · split at h
    · simp only [Except.ok.injEq] at h
      rename_i hguard
      omega
    · exact absurd h (by simp)
  · exact absurd h (by simp)

theorem parse_css_rgb_valid (args : List Char) (c : Color)
    (h : parse_css_rgb args = .ok c) : c.Valid := by
  rw [parse_css_rgb] at h
  split at h
  · exact absurd h (by simp)
  · split at h
    · exact absurd h (by simp)
    · split at h
      · exact absurd h (by simp)
      · split at h
        · obtain ⟨r, hr, h⟩ := exceptBind_ok _ _ _ h
          obtain ⟨g, hg, h⟩ := exceptBind_ok _ _ _ h
          obtain ⟨b, hb, h⟩ := exceptBind_ok _ _ _ h
          simp only [] at h
          split at h
          · obtain ⟨a, ha, h⟩ := exceptBind_ok _ _ _ h
            simp only [Except.ok.injEq] at h
            subst h
            have h1 := parse_rgb_component_le _ _ hr
            have h2 := parse_rgb_component_le _ _ hg
            have h3 := parse_rgb_component_le _ _ hb
            have h4 := parse_alpha_component_le _ _ ha
            simp only [Color.from_rgba, Color.Valid]
            omega
          · obtain ⟨a, ha, h⟩ := exceptBind_ok _ _ _ h
            simp only [Except.ok.injEq] at h ha
            subst h
            have h1 := parse_rgb_component_le _ _ hr
            have h2 := parse_rgb_component_le _ _ hg
            have h3 := parse_rgb_component_le _ _ hb
            simp only [Color.from_rgba, Color.Valid]
            omega
        · exact absurd h (by simp)

theorem parse_css_rgba_valid (args : List Char) (c : Color)
    (h : parse_css_rgba args = .ok c) : c.Valid := by
  rw [parse_css_rgba] at h
  split at h
  · obtain ⟨r, hr, h⟩ := exceptBind_ok _ _ _ h
    obtain ⟨g, hg, h⟩ := exceptBind_ok _ _ _ h
    obtain ⟨b, hb, h⟩ := exceptBind_ok _ _ _ h
    simp only [] at h
    split at h
    · obtain ⟨a, ha, h⟩ := exceptBind_ok _ _ _ h
      simp only [Except.ok.injEq] at h ha
      subst h
      have h1 := rgbaIntComp_le _ _ hr
      have h2 := rgbaIntComp_le _ _ hg
      have h3 := rgbaIntComp_le _ _ hb
      have h4 : a ≤ 255 := ha ▸ asU8_le _
      simp only [Color.from_rgba, Color.Valid]
      omega
    · obtain ⟨a, ha, h⟩ := exceptBind_ok _ _ _ h
      simp only [Except.ok.injEq] at h
      subst h
      have h1 := rgbaIntComp_le _ _ hr
      have h2 := rgbaIntComp_le _ _ hg
      have h3 := rgbaIntComp_le _ _ hb
      have h4 := rgbaIntComp_le _ _ ha
      simp only [Color.from_rgba, Color.Valid]
      omega
  · exact absurd h (by simp)

theorem parse_color_valid (s : List Char) (c : Color) (h : parse_color s = .ok c) :
    c.Valid := by
  rw [parse_color] at h
  split at h
  · exact absurd h (by simp)
  · simp only [] at h
    split at h
    · exact parse_hex_valid _ _ h
    · split at h
      · exact parse_css_rgb_valid _ _ h
      · split at h
        · exact parse_css_rgba_valid _ _ h
        · exact absurd h (by simp)

theorem from_hsl_valid (hsl : ℚ × ℚ × ℚ) : (Color.from_hsl hsl).Valid :=
  ⟨asU8_le _, asU8_le _, asU8_le _, by
    have : (Color.from_hsl hsl).a = 255 := rfl
    omega⟩

theorem over_valid (pw pwInv : ℚ → ℚ) (src bg : Color) :
    (Color.over pw pwInv src bg).Valid := by
  simp only [Color.over]
  exact from_linear_valid _ _

theorem blend_over_valid (pw pwInv sq : ℚ → ℚ) (src bg : Color) (mode : BlendMode)
    (hbg : bg.Valid) : (Color.blend_over pw pwInv sq src bg mode).Valid := by
  rw [Color.blend_over]
  split
  · exact hbg
  · split
    · exact over_valid _ _ _ _
    · exact from_linear_valid _ _

theorem over_srgb_fast_valid (src dst : Color) (hs : src.Valid) (hd : dst.Valid) :
    (Color.over_srgb_fast src dst).Valid := by
  rw [Color.over_srgb_fast]
  split
  · split
    · exact hs
    · exact hd
  · exact ⟨asU8_le _, asU8_le _, asU8_le _, asU8_le _⟩

theorem lerp_valid (c1 c2 : Color) (t : ℚ) : (Color.lerp c1 c2 t).Valid :=
  ⟨intToU8_le _, intToU8_le _, intToU8_le _, intToU8_le _⟩

/-- C9: totality and channel validity.  `parse_color` is a total function
returning either a color (always with all four channels in the `u8` range —
this is the substantive part, since the model's channels are unbounded
naturals) or one of the six typed errors; and the conversion/compositing
constructors always produce colors whose channels are valid 8-bit values,
because every channel is written through the saturating `u8` cast.  (The
"no NaN" clause is reflected by the exact rational semantics: every
division the code performs is guarded, and the model is total.) -/
theorem parse_total_and_channels_valid :
    (∀ s : List Char, (∃ c, parse_color s = .ok c ∧ c.Valid) ∨
      (∃ e, parse_color s = .error e)) ∧
    (∀ (pwInv : ℚ → ℚ) (lin : ℚ × ℚ × ℚ × ℚ), (Color.from_linear pwInv lin).Valid) ∧
    (∀ hsl : ℚ × ℚ × ℚ, (Color.from_hsl hsl).Valid) ∧
    (∀ (pw pwInv : ℚ → ℚ) (src bg : Color), (Color.over pw pwInv src bg).Valid) ∧
    (∀ (pw pwInv sq : ℚ → ℚ) (src bg : Color) (mode : BlendMode), bg.Valid →
      (Color.blend_over pw pwInv sq src bg mode).Valid) ∧
    (∀ src dst : Color, src.Valid → dst.Valid →
      (Color.over_srgb_fast src dst).Valid) ∧
    (∀ (c1 c2 : Color) (t : ℚ), (Color.lerp c1 c2 t).Valid) := by
  refine ⟨?_, from_linear_valid, from_hsl_valid, over_valid, blend_over_valid,
    over_srgb_fast_valid, lerp_valid⟩
  intro s
  cases h : parse_color s with
  | ok c => exact Or.inl ⟨c, rfl, parse_color_valid _ _ h⟩
  | error e => exact Or.inr ⟨e, rfl⟩

/-- C9 witness: the statement applied at concrete inputs. -/
theorem parse_total_and_channels_valid_witness :
    (Color.blend_over id id id ⟨9, 9, 9, 9⟩ ⟨1, 2, 3, 4⟩ .Multiply).Valid :=
  parse_total_and_channels_valid.2.2.2.2.1 id id id ⟨9, 9, 9, 9⟩ ⟨1, 2, 3, 4⟩ .Multiply
    (by decide)

/-- The largest of three values (specification-side helper for `set_sat`). -/
def max3 (r g b : ℚ) : ℚ := max r (max g b)
/-- The smallest of three values. -/
def min3 (r g b : ℚ) : ℚ := min r (min g b)
/-- The middle of three values. -/
def mid3 (r g b : ℚ) : ℚ := r + g + b - max3 r g b - min3 r g b

/-- `set_sat` in closed form: zero triple when the chroma is 0, otherwise
every channel is the affine map `v ↦ mid + (v - mid)·(s/chroma)` anchored at
the MIDDLE channel (the source's role bookkeeping and tie-breaking collapse
to this single formula). -/
theorem set_sat_roles (r g b s : ℚ) :
    Color.set_sat (r, g, b) s =
      (if max3 r g b - min3 r g b = 0 then ((0 : ℚ), (0 : ℚ), (0 : ℚ)) else
        (mid3 r g b + (r - mid3 r g b) * (s / (max3 r g b - min3 r g b)),
         mid3 r g b + (g - mid3 r g b) * (s / (max3 r g b - min3 r g b)),
         mid3 r g b + (b - mid3 r g b) * (s / (max3 r g b - min3 r g b)))) := by
  by_cases c1 : r ≥ g ∧ r ≥ b
  · have hmx : max3 r g b = r := by
      unfold max3
      exact max_eq_left (max_le c1.1 c1.2)
    by_cases c2 : g ≤ b
    · have hmn : min3 r g b = g := by
        unfold min3
        rw [min_eq_left c2]
        exact min_eq_right c1.1
      have hmd : mid3 r g b = b := by
        unfold mid3
        rw [hmx, hmn]
        ring
      simp only [Color.set_sat, if_pos c1, if_pos c2, Color.putChan]
      rw [hmx, hmn, hmd]
      split_ifs with h
      · rfl
      · simp only [Prod.mk.injEq]
        refine ⟨by ring, by ring, by ring⟩
    · have hbg : b ≤ g := le_of_not_le c2
      have hmn : min3 r g b = b := by
        unfold min3
        rw [min_eq_right hbg]
        exact min_eq_right c1.2
      have hmd : mid3 r g b = g := by
        unfold mid3
        rw [hmx, hmn]
        ring
      simp only [Color.set_sat, if_pos c1, if_neg c2, Color.putChan]
      rw [hmx, hmn, hmd]
      split_ifs with h
      · rfl
      · simp only [Prod.mk.injEq]
        refine ⟨by ring, by ring, by ring⟩
  · by_cases c3 : g ≥ r ∧ g ≥ b
    · have hmx : max3 r g b = g := by
        unfold max3
        rw [max_eq_left c3.2]
        exact max_eq_right c3.1
      by_cases c4 : r ≤ b
      · have hmn : min3 r g b = r := by
          unfold min3
          exact min_eq_left (le_min c3.1 c4)
        have hmd : mid3 r g b = b := by
          unfold mid3
          rw [hmx, hmn]
          ring
        simp only [Color.set_sat, if_neg c1, if_pos c3, if_pos c4, Color.putChan]
        rw [hmx, hmn, hmd]
        split_ifs with h
        · rfl
        · simp only [Prod.mk.injEq]
          refine ⟨by ring, by ring, by ring⟩
      · have hbr : b ≤ r := le_of_not_le c4
        have hmn : min3 r g b = b := by
          unfold min3
          rw [min_eq_right c3.2]
          exact min_eq_right hbr
        have hmd : mid3 r g b = r := by
          unfold mid3
          rw [hmx, hmn]
          ring
        simp only [Color.set_sat, if_neg c1, if_pos c3, if_neg c4, Color.putChan]
        rw [hmx, hmn, hmd]
        split_ifs with h
        · rfl
        · simp only [Prod.mk.injEq]
          refine ⟨by ring, by ring, by ring⟩
    · have hrb : r ≤ b ∧ g ≤ b := by
        rcases not_and_or.mp c1 with h | h <;> rcases not_and_or.mp c3 with h' | h' <;>
          push_neg at h h' <;> exact ⟨by linarith, by linarith⟩
      have hmx : max3 r g b = b := by
        unfold max3
        rw [max_eq_right hrb.2]
        exact max_eq_right hrb.1
      by_cases c5 : r ≤ g
      · have hmn : min3 r g b = r := by
          unfold min3
          exact min_eq_left (le_min c5 hrb.1)
        have hmd : mid3 r g b = g := by
          unfold mid3
          rw [hmx, hmn]
          ring
        simp only [Color.set_sat, if_neg c1, if_neg c3, if_pos c5, Color.putChan]
        rw [hmx, hmn, hmd]
        split_ifs with h
        · rfl
        · simp only [Prod.mk.injEq]
          refine ⟨by ring, by ring, by ring⟩
      · have hgr : g ≤ r := le_of_not_le c5
        have hmn : min3 r g b = g := by
          unfold min3
          rw [min_eq_left hrb.2]
          exact min_eq_right hgr
        have hmd : mid3 r g b = r := by
          unfold mid3
          rw [hmx, hmn]
          ring
        simp only [Color.set_sat, if_neg c1, if_neg c3, if_neg c5, Color.putChan]
        rw [hmx, hmn, hmd]
        split_ifs with h
        · rfl
        · simp only [Prod.mk.injEq]
          refine ⟨by ring, by ring, by ring⟩

/-- C7 counterexample: the claim has `set_sat` rescale mid and max relative
to the MIN channel (so the min channel stays put, as in the W3C reference
where the min goes to 0 and only mid/max are rescaled from it).  The code
instead anchors at the MID channel: on `(1, 1/2, 0)` with target chroma
`1/2` the minimum channel moves from `0` to `1/4`. -/
theorem set_sat_min_moves_cex :
    Color.set_sat (1, 1/2, 0) (1/2) = (3/4, 1/2, 1/4) ∧ ((1/4 : ℚ)) ≠ 0 := by
  constructor
  · norm_num [Color.set_sat, Color.putChan]
  · norm_num

/-- C7 (amended): when the chroma (max minus min channel) is 0, `set_sat`
returns the all-zero triple.  Otherwise it rescales the max and min channels
relative to the MID channel (which stays fixed): every channel becomes
`mid + (v - mid)·(s/chroma)`, a formula independent of the sequential
R-then-G-then-B tie-breaking, and the resulting triple's chroma equals `s`
(for `s ≥ 0`). -/
theorem set_sat_mid_anchored (r g b s : ℚ) (hs : 0 ≤ s) :
    (max3 r g b - min3 r g b = 0 → Color.set_sat (r, g, b) s = (0, 0, 0)) ∧
    (max3 r g b - min3 r g b ≠ 0 →
      Color.set_sat (r, g, b) s =
        (mid3 r g b + (r - mid3 r g b) * (s / (max3 r g b - min3 r g b)),
         mid3 r g b + (g - mid3 r g b) * (s / (max3 r g b - min3 r g b)),
         mid3 r g b + (b - mid3 r g b) * (s / (max3 r g b - min3 r g b))) ∧
      Color.sat (Color.set_sat (r, g, b) s) = s) := by
  constructor
  · intro h0
    rw [set_sat_roles, if_pos h0]
  · intro hne
    have h2a : Color.set_sat (r, g, b) s =
        (mid3 r g b + (r - mid3 r g b) * (s / (max3 r g b - min3 r g b)),
         mid3 r g b + (g - mid3 r g b) * (s / (max3 r g b - min3 r g b)),
         mid3 r g b + (b - mid3 r g b) * (s / (max3 r g b - min3 r g b))) := by
      rw [set_sat_roles, if_neg hne]
    refine ⟨h2a, ?_⟩
    have hle : min3 r g b ≤ max3 r g b :=
      le_trans (min_le_left _ _) (le_max_left _ _)
    have hchpos : 0 < max3 r g b - min3 r g b :=
      lt_of_le_of_ne (by linarith) (fun hh => hne hh.symm)
    have hk : 0 ≤ s / (max3 r g b - min3 r g b) :=
      div_nonneg hs (le_of_lt hchpos)
    have hmono : Monotone
        (fun v : ℚ => mid3 r g b + (v - mid3 r g b) * (s / (max3 r g b - min3 r g b))) := by
      intro x y hxy
      simp only
      have := mul_le_mul_of_nonneg_right (sub_le_sub_right hxy (mid3 r g b)) hk
      linarith
    rw [h2a, Color.sat]
    simp only
    rw [← hmono.map_max, ← hmono.map_max, ← hmono.map_min, ← hmono.map_min]
    show mid3 r g b + (max3 r g b - mid3 r g b) * (s / (max3 r g b - min3 r g b)) -
        (mid3 r g b + (min3 r g b - mid3 r g b) * (s / (max3 r g b - min3 r g b))) = s
    have hfac : mid3 r g b + (max3 r g b - mid3 r g b) * (s / (max3 r g b - min3 r g b)) -
        (mid3 r g b + (min3 r g b - mid3 r g b) * (s / (max3 r g b - min3 r g b)))
        = s / (max3 r g b - min3 r g b) * (max3 r g b - min3 r g b) := by
      ring
    rw [hfac, div_mul_cancel₀ _ (ne_of_gt hchpos)]

/-- C7 witness: the amended statement at a concrete triple. -/
theorem set_sat_mid_anchored_witness :
    Color.set_sat ((1 : ℚ), 1/2, 0) (1/2) =
      (mid3 1 (1/2) 0 + (1 - mid3 1 (1/2) 0) * ((1/2) / (max3 1 (1/2) 0 - min3 1 (1/2) 0)),
       mid3 1 (1/2) 0 + ((1/2) - mid3 1 (1/2) 0) * ((1/2) / (max3 1 (1/2) 0 - min3 1 (1/2) 0)),
       mid3 1 (1/2) 0 + (0 - mid3 1 (1/2) 0) * ((1/2) / (max3 1 (1/2) 0 - min3 1 (1/2) 0))) :=
  ((set_sat_mid_anchored 1 (1/2) 0 (1/2) (by norm_num)).2
    (by norm_num [max3, min3])).1
